import Mathlib

/-!
Verification of the `y_middleware` HTTP middleware composition library
(`src/main.go`), a Negroni-style chain of handlers.

Embedding conventions:
* The observable per-request data (the `http.ResponseWriter` contents
  together with the `*http.Request`) is abstracted as a single state value
  of an arbitrary type `σ` that handlers read and transform.
* A Go `http.HandlerFunc` used as a continuation becomes `σ → Option σ`,
  where `none` models a Go panic propagating out of the call.
* A `Handler` interface value becomes a function from its continuation and
  the current state to the resulting state; a `nil` interface value is
  modelled as `none : Option (Handler σ)`.
* A `*middleware` pointer becomes `Option (middleware σ)`, `none` being the
  nil pointer; the zero value `middleware{}` is `middleware.mk none none`.
* Go methods that mutate their receiver (`Use` and friends) become
  functions returning the receiver state after the call, paired with a
  `Bool` that is `true` exactly when the call panicked.
-/

set_option autoImplicit false

namespace YMiddleware

/-- An `http.HandlerFunc` as the chain uses it (the continuation type):
a transformer of the request/response state; `none` models a panic. -/
abbrev Cont (σ : Type) := σ → Option σ

/-- The `Handler` interface of `src/main.go`: `ServeHTTP(rw, r, next)`,
modelled as a function of the continuation `next` and the current state. -/
abbrev Handler (σ : Type) := Cont σ → σ → Option σ

/-- The `HandlerFunc` adapter: an ordinary function of the right shape is a
`Handler`; in the embedding this is the identity coercion. -/
def HandlerFunc {σ : Type} (f : Cont σ → σ → Option σ) : Handler σ := f

/-- The `middleware` struct: a `Handler` (possibly the nil interface value,
modelled by `none`) and a pointer to the next node (`none` = nil pointer). -/
inductive middleware (σ : Type) : Type where
  | mk (handler : Option (Handler σ)) (next : Option (middleware σ))

/-- `middleware.ServeHTTP(rw, r)`: evaluates the method value
`m.next.ServeHTTP` (dereferencing the `next` pointer, so a nil pointer
panics), then invokes `m.handler.ServeHTTP` with it (a nil interface value
panics). -/
def middleware.ServeHTTP {σ : Type} : middleware σ → σ → Option σ
  | .mk handler next, s =>
    match next with
    | none => none
    | some nxt =>
      match handler with
      | none => none
      | some h => h (fun s2 => middleware.ServeHTTP nxt s2) s

/-- `voidMiddleware()`: the terminal sentinel node — a no-op handler that
ignores its continuation, and an unused zero-value next node. -/
def voidMiddleware (σ : Type) : middleware σ :=
  .mk (some (HandlerFunc (fun _next s => some s))) (some (.mk none none))

/-- `build(handlers)`: the recursive chain builder of `src/main.go`. -/
def build {σ : Type} : List (Option (Handler σ)) → middleware σ
  | [] => voidMiddleware σ
  | h :: rest =>
    .mk h (some (if rest.isEmpty then voidMiddleware σ else build rest))

/-- The `Kudret` stack: the pre-built chain head and the stored ordered
handler list. -/
structure Kudret (σ : Type) where
  middleware : middleware σ
  handlers : List (Option (Handler σ))

/-- `New(handlers...)`: stores the list and builds the chain immediately. -/
def New {σ : Type} (handlers : List (Option (Handler σ))) : Kudret σ :=
  ⟨build handlers, handlers⟩

/-- `With(handlers...)`: a brand-new stack over the concatenated list; the
receiver is not written through. Value-level view of Go's
`append(k.handlers, handlers...)`: the elements the slices see, ignoring
the shared backing array; `KudretS.With` below models the sharing. -/
def Kudret.With {σ : Type} (k : Kudret σ) (handlers : List (Option (Handler σ))) :
    Kudret σ :=
  New (k.handlers ++ handlers)

/-- `Kudret.ServeHTTP(rw, r)`: dispatch through the stored chain head. -/
def Kudret.ServeHTTP {σ : Type} (k : Kudret σ) (s : σ) : Option σ :=
  k.middleware.ServeHTTP s

/-- `Use(handler)`: panics on a nil handler (leaving the stack as it was,
since the check precedes both assignments); otherwise appends the handler
and rebuilds the chain. Returns (stack state after the call, panicked?).
Value-level view of the slice append; `KudretS.Use` below models the
backing array. -/
def Kudret.Use {σ : Type} (k : Kudret σ) (handler : Option (Handler σ)) :
    Kudret σ × Bool :=
  match handler with
  | none => (k, true)
  | some h => (⟨build (k.handlers ++ [some h]), k.handlers ++ [some h]⟩, false)

/-- `Wrap(handler)`: adapts a plain `http.Handler` (a state transformer with
no continuation) by running it and then invoking the continuation. -/
def Wrap {σ : Type} (handler : σ → σ) : Handler σ :=
  HandlerFunc (fun next s => next (handler s))

/-- `WrapFunc(handlerFunc)`: same adapter for a bare `http.HandlerFunc`. -/
def WrapFunc {σ : Type} (handlerFunc : σ → σ) : Handler σ :=
  HandlerFunc (fun next s => next (handlerFunc s))

/-- `UseFunc(f)`: `Use(HandlerFunc(f))`. -/
def Kudret.UseFunc {σ : Type} (k : Kudret σ) (f : Cont σ → σ → Option σ) :
    Kudret σ × Bool :=
  k.Use (some (HandlerFunc f))

/-- `UseHandler(handler)`: `Use(Wrap(handler))`. -/
def Kudret.UseHandler {σ : Type} (k : Kudret σ) (handler : σ → σ) :
    Kudret σ × Bool :=
  k.Use (some (Wrap handler))

/-- `UseHandlerFunc(handlerFunc)`: `Use(WrapFunc(handlerFunc))`. -/
def Kudret.UseHandlerFunc {σ : Type} (k : Kudret σ) (handlerFunc : σ → σ) :
    Kudret σ × Bool :=
  k.Use (some (WrapFunc handlerFunc))

/-- `Handlers()`: the stored handler list. -/
def Kudret.Handlers {σ : Type} (k : Kudret σ) : List (Option (Handler σ)) :=
  k.handlers

/-- The `DefaultAddress` constant. -/
def DefaultAddress : String := ":8080"

/-- `detectAddress(addr...)`: first explicit argument if any; otherwise
`":" + PORT` when the `PORT` environment variable (as `os.Getenv` returns
it — the empty string when unset) is non-empty; otherwise the default. -/
def detectAddress (addr : List String) (portEnv : String) : String :=
  match addr with
  | a :: _ => a
  | [] => if portEnv ≠ "" then ":" ++ portEnv else DefaultAddress

/-- A Go slice header: the id of its backing array in the arena, its
length and its capacity. The `Kudret.handlers` field of the running
program is such a header, and `append` may write through it into cells
shared with other slices. -/
structure GoSlice where
  arr : Nat
  len : Nat
  cap : Nat

/-- The arena of backing arrays; an array is the list of its cells (as
many as its capacity), its id the index into the arena. -/
structure Heap (σ : Type) where
  arrays : List (List (Option (Handler σ)))

/-- The nil slice (`var s []Handler`): zero length and capacity. -/
def nilSlice : GoSlice := ⟨0, 0, 0⟩

/-- The elements a slice header sees: the first `len` cells of its
backing array. -/
def Heap.read {σ : Type} (h : Heap σ) (s : GoSlice) :
    List (Option (Handler σ)) :=
  (h.arrays.getD s.arr []).take s.len

/-- Overwrite the cells of an array from index `i` on with `xs`. -/
def setCells {α : Type} (cells : List α) (i : Nat) (xs : List α) : List α :=
  match xs with
  | [] => cells
  | x :: rest => setCells (cells.set i x) (i + 1) rest

/-- Go's built-in `append(s, xs...)`: if the extra elements fit in the
spare capacity they are written in place into the backing array — visible
through every other slice over that array — and the returned header shares
it; otherwise a fresh array is allocated with Go's small-slice growth
(double the capacity, at least the needed length) and the contents are
copied. -/
def Heap.goAppend {σ : Type} (h : Heap σ) (s : GoSlice)
    (xs : List (Option (Handler σ))) : Heap σ × GoSlice :=
  let need := s.len + xs.length
  if need ≤ s.cap then
    (⟨h.arrays.set s.arr (setCells (h.arrays.getD s.arr []) s.len xs)⟩,
      ⟨s.arr, need, s.cap⟩)
  else
    let newcap := max need (s.cap * 2)
    (⟨h.arrays ++ [(h.read s ++ xs) ++ List.replicate (newcap - need) none]⟩,
      ⟨h.arrays.length, need, newcap⟩)

/-- The `Kudret` stack at slice level: the built chain head and the
`handlers` slice header into the heap. -/
structure KudretS (σ : Type) where
  middleware : middleware σ
  handlers : GoSlice

/-- `New(handlers...)` at slice level: the variadic call passes the slice
itself (no copy); the chain is built from the values it currently sees. -/
def NewS {σ : Type} (h : Heap σ) (handlers : GoSlice) : KudretS σ :=
  ⟨build (h.read handlers), handlers⟩

/-- `Use(handler)` at slice level: `k.handlers = append(k.handlers, handler)`
then `k.middleware = build(k.handlers)`. Returns ((stack, heap) after the
call, panicked?). -/
def KudretS.Use {σ : Type} (k : KudretS σ) (h : Heap σ)
    (handler : Option (Handler σ)) : (KudretS σ × Heap σ) × Bool :=
  match handler with
  | none => ((k, h), true)
  | some hh =>
    let p := h.goAppend k.handlers [some hh]
    ((⟨build (p.1.read p.2), p.2⟩, p.1), false)

/-- `With(handlers...)` at slice level: `New(append(k.handlers, handlers...)...)`.
The receiver's own header is not updated, but the `append` may write into
its backing array's spare cells. -/
def KudretS.With {σ : Type} (k : KudretS σ) (h : Heap σ)
    (handlers : List (Option (Handler σ))) : KudretS σ × Heap σ :=
  let p := h.goAppend k.handlers handlers
  (NewS p.1 p.2, p.1)

/-- Instrumented handler used to observe dispatch: it appends its identity
`i` to the trace carried in the state, then invokes its continuation iff
`b`. -/
def traceHandler (b : Bool) (i : Nat) : Handler (List Nat) :=
  HandlerFunc (fun next s => if b then next (s ++ [i]) else some (s ++ [i]))

/-- Trace handlers at positions `off, off + 1, ...`, their continuation
behaviour given by `flags`. -/
def traceChain : List Bool → Nat → List (Option (Handler (List Nat)))
  | [], _ => []
  | b :: bs, off => some (traceHandler b off) :: traceChain bs (off + 1)

/-- How many of the listed handlers a dispatch invokes: every handler up to
and including the first whose flag is `false`. -/
def stopLen : List Bool → Nat
  | [] => 0
  | b :: bs => if b then stopLen bs + 1 else 1

/-- The list `[off, off + 1, ..., off + n - 1]`. -/
def chainIds : Nat → Nat → List Nat
  | _, 0 => []
  | off, n + 1 => off :: chainIds (off + 1) n

/-- A handler that invokes its continuation at most once: it transforms the
state by `eff` and continues iff `dec` holds of the incoming state. -/
structure OnceHandler (σ : Type) where
  eff : σ → σ
  dec : σ → Bool

/-- Interpretation of an `OnceHandler` as a `Handler` over the state paired
with a counter of handler invocations. -/
def OnceHandler.interp {σ : Type} (h : OnceHandler σ) : Handler (σ × Nat) :=
  HandlerFunc (fun next s =>
    if h.dec s.1 then next (h.eff s.1, s.2 + 1) else some (h.eff s.1, s.2 + 1))

/-- A handler that invokes its continuation twice, counting its own
invocations in the state. -/
def doubleHandler : Handler Nat :=
  HandlerFunc (fun next s => (next (s + 1)).bind next)

/-- A trivial pass-through handler, used to instantiate witnesses. -/
def idHandler : Handler Nat :=
  HandlerFunc (fun next s => next s)

/-- Shorthand for a trace handler that always continues, as an interface
value. -/
def tHandler (i : Nat) : Option (Handler (List Nat)) :=
  some (traceHandler true i)

/-- The aliasing scenario, run at slice level with the distinct handlers
`tHandler 0 .. tHandler 4` standing for a, b, c, d, e:
`k := New(); k.Use(a); k.Use(b); k.Use(c); k2 := k.With(d); k.Use(e)`.
The third `Use` grows the backing array to capacity 4 with length 3;
`With` writes d into the spare cell and k2's header shares that array;
`k.Use(e)` then overwrites that same cell with e. Result: (k2, final heap). -/
def aliasScenario : KudretS (List Nat) × Heap (List Nat) :=
  let h0 : Heap (List Nat) := ⟨[]⟩
  let k0 := NewS h0 nilSlice
  let p1 := k0.Use h0 (tHandler 0)
  let p2 := p1.1.1.Use p1.1.2 (tHandler 1)
  let p3 := p2.1.1.Use p2.1.2 (tHandler 2)
  let p4 := p3.1.1.With p3.1.2 [tHandler 3]
  let p5 := p3.1.1.Use p4.2 (tHandler 4)
  (p4.1, p5.1.2)

/- ### Helper lemmas -/

theorem build_cons {σ : Type} (h : Option (Handler σ))
    (rest : List (Option (Handler σ))) :
    build (h :: rest) = .mk h (some (build rest)) := by
  cases rest <;> rfl

theorem ServeHTTP_mk {σ : Type} (h : Handler σ) (nxt : middleware σ) (s : σ) :
    (middleware.mk (some h) (some nxt)).ServeHTTP s =
      h (fun s2 => nxt.ServeHTTP s2) s := rfl

theorem voidMiddleware_ServeHTTP {σ : Type} (s : σ) :
    (voidMiddleware σ).ServeHTTP s = some s := rfl

/-- Master trace lemma: dispatching through the chain built from the trace
handlers extends the trace by exactly the identities
`off, off + 1, ..., off + stopLen flags - 1`, in order, and never panics. -/
theorem serve_traceChain (flags : List Bool) (off : Nat) (s : List Nat) :
    (build (traceChain flags off)).ServeHTTP s =
      some (s ++ chainIds off (stopLen flags)) := by
  induction flags generalizing off s with
  | nil => simp [traceChain, build, stopLen, chainIds, voidMiddleware_ServeHTTP]
  | cons b bs ih =>
    rw [traceChain, build_cons, ServeHTTP_mk]
    cases b with
    | false => simp [traceHandler, HandlerFunc, stopLen, chainIds]
    | true =>
      simp only [traceHandler, HandlerFunc, if_true, stopLen, chainIds, ih]
      simp [chainIds, List.append_assoc]

theorem stopLen_le_length (flags : List Bool) : stopLen flags ≤ flags.length := by
  induction flags with
  | nil => simp [stopLen]
  | cons b bs ih => cases b <;> simp [stopLen] <;> omega

theorem stopLen_of_dropLast_true (flags : List Bool)
    (hall : ∀ b ∈ flags.dropLast, b = true) :
    stopLen flags = flags.length := by
  induction flags with
  | nil => rfl
  | cons b bs ih =>
    cases bs with
    | nil => cases b <;> rfl
    | cons b2 bs2 =>
      have hb : b = true := hall b (by simp [List.dropLast])
      subst hb
      have hlen : stopLen (b2 :: bs2) = (b2 :: bs2).length := by
        apply ih
        intro x hx
        exact hall x (by simp [List.dropLast, hx])
      rw [show stopLen (true :: b2 :: bs2) = stopLen (b2 :: bs2) + 1 from rfl, hlen]
      rfl

theorem stopLen_le_of_get_false (flags : List Bool) (i : Nat)
    (hi : i < flags.length) (hfalse : flags.get ⟨i, hi⟩ = false) :
    stopLen flags ≤ i + 1 := by
  induction flags generalizing i with
  | nil => simp at hi
  | cons b bs ih =>
    cases i with
    | zero =>
      simp only [List.get] at hfalse
      subst hfalse
      simp [stopLen]
    | succ j =>
      simp only [List.get] at hfalse
      have hj : j < bs.length := by simpa using hi
      have := ih j hj hfalse
      cases b <;> simp [stopLen] <;> omega

theorem mem_chainIds (off n j : Nat) (hj : j ∈ chainIds off n) : j < off + n := by
  induction n generalizing off with
  | zero => simp [chainIds] at hj
  | succ m ih =>
    simp only [chainIds, List.mem_cons] at hj
    rcases hj with h | h
    · omega
    · have := ih (off + 1) h
      omega

theorem chainIds_zero_eq_range (n : Nat) : chainIds 0 n = List.range n := by
  have key : ∀ m off, chainIds off m = List.range' off m := by
    intro m
    induction m with
    | zero => intro off; rfl
    | succ p ih => intro off; simp [chainIds, List.range', ih]
  rw [key, List.range_eq_range']

theorem interp_apply {σ : Type} (h : OnceHandler σ) (next : Cont (σ × Nat))
    (s : σ) (c : Nat) :
    h.interp next (s, c) =
      if h.dec s then next (h.eff s, c + 1) else some (h.eff s, c + 1) := rfl

/-- Counting lemma for `OnceHandler` chains: dispatch succeeds and invokes
at most as many handlers as the list holds, for any starting count. -/
theorem serve_onceChain {σ : Type} (hs : List (OnceHandler σ)) (s : σ) (c0 : Nat) :
    ∃ s2 c, (build (hs.map (fun h => some h.interp))).ServeHTTP (s, c0) =
        some (s2, c0 + c) ∧ c ≤ hs.length := by
  induction hs generalizing s c0 with
  | nil =>
    refine ⟨s, 0, ?_, by simp⟩
    simp [build, voidMiddleware_ServeHTTP]
  | cons h rest ih =>
    rw [List.map_cons, build_cons, ServeHTTP_mk]
    by_cases hd : h.dec s = true
    · obtain ⟨s2, c, hserve, hc⟩ := ih (h.eff s) (c0 + 1)
      refine ⟨s2, c + 1, ?_, by simpa using Nat.succ_le_succ hc⟩
      have hadd : c0 + (c + 1) = c0 + 1 + c := by omega
      rw [interp_apply, if_pos hd, hadd]
      exact hserve
    · refine ⟨h.eff s, 1, ?_, by simp⟩
      rw [interp_apply, if_neg hd]

/- ### Claim theorems -/

/-- Claim C1: for every non-empty ordered list of handlers, dispatching
through the chain built by `build` invokes each handler exactly in the
list's registration order, provided every handler before the last invokes
its continuation. Formalised over the instrumented trace handlers: the
dispatch trace is exactly `[0, 1, ..., n-1]`. -/
theorem dispatch_in_registration_order (flags : List Bool) (hne : flags ≠ [])
    (hall : ∀ b ∈ flags.dropLast, b = true) :
    (build (traceChain flags 0)).ServeHTTP [] = some (List.range flags.length) := by
  rw [serve_traceChain, stopLen_of_dropLast_true flags hall]
  simp [chainIds_zero_eq_range]

/-- Witness for C1 at the three-handler list where the first two continue. -/
theorem dispatch_in_registration_order_witness :
    [true, true, false] ≠ ([] : List Bool) ∧
      (∀ b ∈ [true, true, false].dropLast, b = true) ∧
      (build (traceChain [true, true, false] 0)).ServeHTTP [] =
        some (List.range 3) :=
  ⟨by decide, by decide,
    dispatch_in_registration_order [true, true, false] (by decide) (by decide)⟩

/-- Claim C2: if the handler at 0-indexed position `i` does not invoke its
continuation, no handler at a position greater than `i` is invoked during
that dispatch — every identity in the trace is at most `i`, for any list
and any `i`. -/
theorem short_circuit_stops_chain (flags : List Bool) (i : Nat)
    (hi : i < flags.length) (hfalse : flags.get ⟨i, hi⟩ = false) (t : List Nat)
    (ht : (build (traceChain flags 0)).ServeHTTP [] = some t) :
    ∀ j ∈ t, j ≤ i := by
  rw [serve_traceChain] at ht
  have hteq : t = chainIds 0 (stopLen flags) := by
    simpa using ht.symm
  subst hteq
  intro j hj
  have h1 := mem_chainIds 0 (stopLen flags) j hj
  have h2 := stopLen_le_of_get_false flags i hi hfalse
  omega

/-- Witness for C2: the middle handler of three stops the chain. -/
theorem short_circuit_stops_chain_witness :
    (build (traceChain [true, false, true] 0)).ServeHTTP [] = some [0, 1] ∧
      ∀ j ∈ [0, 1], j ≤ 1 :=
  ⟨by rw [serve_traceChain]; rfl,
    short_circuit_stops_chain [true, false, true] 1 (by decide) (by decide)
      [0, 1] (by rw [serve_traceChain]; rfl)⟩

/-- Claim C3: dispatch through the chain built from the empty handler list
invokes no registered handler, leaves the state unmodified and does not
panic: `build []` is exactly the `voidMiddleware` sentinel, whose no-op
handler returns the state unchanged and never invokes its uninitialized
next node. -/
theorem empty_chain_noop (σ : Type) (s : σ) :
    build ([] : List (Option (Handler σ))) = voidMiddleware σ ∧
      (build ([] : List (Option (Handler σ)))).ServeHTTP s = some s :=
  ⟨rfl, rfl⟩

/-- Claim C4: `Use` panics iff the handler is nil; for every non-nil
handler it appends the handler to the end of the stored list and rebuilds
the chain from the full updated list before returning. -/
theorem Use_panics_iff_nil {σ : Type} (k : Kudret σ)
    (handler : Option (Handler σ)) :
    ((k.Use handler).2 = true ↔ handler = none) ∧
      ∀ h, handler = some h →
        k.Use handler =
          (⟨build (k.handlers ++ [some h]), k.handlers ++ [some h]⟩, false) := by
  cases handler <;> simp [Kudret.Use]

/-- Witness for C4: `Use` of a concrete non-nil handler on the empty stack
appends it and rebuilds. -/
theorem Use_panics_iff_nil_witness :
    (New ([] : List (Option (Handler Nat)))).Use (some idHandler) =
      (⟨build ((New ([] : List (Option (Handler Nat)))).handlers ++ [some idHandler]),
         (New ([] : List (Option (Handler Nat)))).handlers ++ [some idHandler]⟩,
        false) :=
  (Use_panics_iff_nil (New ([] : List (Option (Handler Nat))))
    (some idHandler)).2 idHandler rfl

/-- Claim C5 is violated by the code (the claim states the intended
invariant, the spec's own words): after
`k := New(); k.Use(a); k.Use(b); k.Use(c); k2 := k.With(d); k.Use(e)`
— only completed public operations — the last `Use` overwrites d with e in
the backing array k2's handler slice shares, so k2's stored chain head
still dispatches handlers a, b, c, d while `build` of k2's current handler
list dispatches a, b, c, e: a reachable stack serves a stale chain. -/
theorem stale_chain_served :
    aliasScenario.1.middleware.ServeHTTP [] = some [0, 1, 2, 3] ∧
      aliasScenario.2.read aliasScenario.1.handlers =
        [tHandler 0, tHandler 1, tHandler 2, tHandler 4] ∧
      (build (aliasScenario.2.read aliasScenario.1.handlers)).ServeHTTP [] =
        some [0, 1, 2, 4] ∧
      some [0, 1, 2, 3] ≠ some [0, 1, 2, 4] :=
  ⟨by decide, rfl, by decide, by decide⟩

/-- Claim C6: `With` returns a new, independently built stack whose handler
list is the receiver's handlers followed by the additional ones; the
receiver is passed by value in the embedding and the Go method never
assigns through it, so dispatch on the original stack is unchanged. -/
theorem With_independent {σ : Type} (k : Kudret σ)
    (handlers : List (Option (Handler σ))) :
    k.With handlers = New (k.handlers ++ handlers) ∧
      (k.With handlers).handlers = k.handlers ++ handlers ∧
      (k.With handlers).middleware = build (k.handlers ++ handlers) :=
  ⟨rfl, rfl, rfl⟩

/-- Claim C7: an adapted plain handler (via `Wrap` or `WrapFunc`), invoked
with any continuation, runs the wrapped handler and then unconditionally
invokes the continuation; chained before any downstream chain, dispatch
always reaches that downstream chain. -/
theorem wrap_never_short_circuits {σ : Type} (handler handlerFunc : σ → σ)
    (next : Cont σ) (s : σ) (rest : List (Option (Handler σ))) :
    Wrap handler next s = next (handler s) ∧
      WrapFunc handlerFunc next s = next (handlerFunc s) ∧
      (build (some (Wrap handler) :: rest)).ServeHTTP s =
        (build rest).ServeHTTP (handler s) := by
  refine ⟨rfl, rfl, ?_⟩
  rw [build_cons, ServeHTTP_mk]
  rfl

/-- Claim C8: `detectAddress` resolves with precedence explicit argument >
environment override > default: a first argument wins regardless of the
environment; otherwise a non-empty `PORT` value `p` yields `":" ++ p`;
otherwise the default `":8080"`. -/
theorem detectAddress_precedence (a : String) (rest : List String)
    (portEnv p : String) (hp : p ≠ "") :
    detectAddress (a :: rest) portEnv = a ∧
      detectAddress [] p = ":" ++ p ∧
      detectAddress [] "" = ":8080" := by
  refine ⟨rfl, ?_, rfl⟩
  simp [detectAddress, hp]

/-- Witness for C8 at the spec's concrete scenario. -/
theorem detectAddress_precedence_witness :
    detectAddress [":7000"] "9090" = ":7000" ∧
      detectAddress [] "9090" = ":" ++ "9090" ∧
      detectAddress [] "" = ":8080" :=
  detectAddress_precedence ":7000" [] "9090" "9090" (by decide)

/-- Counterexample to claim C9 as stated: three handlers, each a total,
non-blocking, non-looping function that invokes its continuation twice,
produce 7 handler invocations on dispatch — more than
`len(handlers) + 1 = 4`. -/
theorem double_invoke_exceeds_bound :
    (build (List.replicate 3 (some doubleHandler))).ServeHTTP 0 = some 7 ∧
      ¬(7 ≤ 3 + 1) :=
  ⟨rfl, by decide⟩

/-- Claim C9 (amended): dispatch through the full built chain always
terminates, in at most `len(handlers) + 1` handler invocations, provided no
handler blocks or loops and each handler invokes its continuation at most
once. Formalised over `OnceHandler` chains with an invocation counter: the
dispatch returns `some` and invokes at most `len(handlers)` of the
registered handlers, the terminal sentinel accounting for the extra one. -/
theorem dispatch_terminates_bounded {σ : Type} (hs : List (OnceHandler σ)) (s : σ) :
    ∃ s2 c, (build (hs.map (fun h => some h.interp))).ServeHTTP (s, 0) =
        some (s2, c) ∧ c ≤ hs.length := by
  obtain ⟨s2, c, hserve, hc⟩ := serve_onceChain hs s 0
  exact ⟨s2, c, by simpa using hserve, hc⟩

/-- Claim C10: a failed `Use` is atomic: called with the nil handler it
panics with the stored handler list and the built chain both exactly as
they were before the call. -/
theorem Use_nil_atomic {σ : Type} (k : Kudret σ) :
    (k.Use none).2 = true ∧
      (k.Use none).1.handlers = k.handlers ∧
      (k.Use none).1.middleware = k.middleware :=
  ⟨rfl, rfl, rfl⟩

end YMiddleware
